import Mathlib

/-
Verification of the gen_must wrapper generator (src/main.go) against its
natural-language specification.  The Go program scans a loaded package for
function declarations whose first body comment carries the `//@gen_must`
marker and emits a `Must`-style wrapper that forwards to the original
function and panics on a non-nil trailing error.

The embedding below translates the relevant Go functions into Lean:
  * `generateType`   ← generateType   (type-expression reconstructor)
  * `generateReceiver`, `generateParams`, `generateReturns`,
    `generateTypeParams` ← the signature extractors
  * `mustName`       ← mustName       (default wrapper-name derivation)
  * `scanFunc`       ← the per-declaration part of walkCode (tag scanner)
  * `generateMust`   ← generator.generateMust (wrapper synthesizer)
  * `runGen`         ← walkCode composed with generateMust over a package

Go slices/pointers are modelled with `List`/`Option`; `Except GenError`
models returned `error` values; an outer `Option` models partiality: a
`none` result marks an input on which the Go code dereferences a nil
pointer or indexes out of range (a runtime panic, hence no defined result).
Errors that the program reports through `showError` (print + `os.Exit(-1)`)
are modelled as `Except.error` values that abort the run, which is
observationally the same run-level behaviour (fatal, first failure wins).
Strings are manipulated through their character lists; this models Go's
byte-level string operations faithfully for ASCII data, and every concrete
input used below is ASCII.
-/

namespace GenMust

/-- Error values of src/main.go (`errUnknownFieldType`, `errNoReturnValues`,
`errNoErrorReturn`). `errNoPackageFound` belongs to the external loader and
is not needed by any claim. -/
inductive GenError where
  | unknownFieldType
  | noReturnValues
  | noErrorReturn
deriving DecidableEq, Repr

/-- Models a `token.Token` appearing as the operator of a unary/binary type
expression: its source text (`Op.String()`) and whether `IsOperator()`
holds for it. -/
structure Op where
  str : String
  isOperator : Bool
deriving DecidableEq, Repr

/-- Models the `ast.Expr` shapes handled by `generateType` plus two real Go
type-expression shapes (`*ast.SelectorExpr`, `*ast.ArrayType`) that fall
into its `default:` branch. -/
inductive Expr where
  | star (x : Expr)
  | ident (name : String)
  | ellipsis (elt : Expr)
  | binary (x : Expr) (op : Op) (y : Expr)
  | unary (op : Op) (x : Expr)
  | index (x : Expr) (idx : Expr)
  | indexList (x : Expr) (indices : List Expr)
  | selector (x : Expr) (sel : String)
  | arrayType (elt : Expr)
deriving Repr

mutual
/-- Models the text Go's `fmt` package produces for an `ast.Expr` under the
`%s`/`%v` verbs, as used by `generateType` for `t.Elt` (ellipsis case) and
`t.X` (unary case).  `*ast.Ident` implements `fmt.Stringer` and prints its
name; every other node prints Go's default struct dump `&\x7b …fields… \x7d`.
Token positions, which the claims never depend on, are elided to `0`. -/
def rawText : Expr → String
  | .ident n => n
  | .star x => "&\x7b0 " ++ rawText x ++ "\x7d"
  | .ellipsis elt => "&\x7b0 " ++ rawText elt ++ "\x7d"
  | .binary x op y => "&\x7b" ++ rawText x ++ " 0 " ++ op.str ++ " " ++ rawText y ++ "\x7d"
  | .unary op x => "&\x7b0 " ++ op.str ++ " " ++ rawText x ++ "\x7d"
  | .index x idx => "&\x7b" ++ rawText x ++ " 0 " ++ rawText idx ++ " 0\x7d"
  | .indexList x is => "&\x7b" ++ rawText x ++ " 0 [" ++ rawTextList is ++ "] 0\x7d"
  | .selector x sel => "&\x7b" ++ rawText x ++ " " ++ sel ++ "\x7d"
  | .arrayType elt => "&\x7b0 <nil> " ++ rawText elt ++ "\x7d"

/-- Space-separated rendering of a `[]ast.Expr` under Go's default `%v`. -/
def rawTextList : List Expr → String
  | [] => ""
  | [e] => rawText e
  | e :: rest => rawText e ++ " " ++ rawTextList rest
end

mutual
/-- Embeds `generateType` of src/main.go: reconstructs source text from a
type-expression node, failing with `errUnknownFieldType` on unsupported
shapes.  Note the `unary` case: the Go code renders the operand `t.X` with
`fmt.Sprintf("%s%s", t.Op.String(), t.X)`, i.e. verbatim via `rawText`,
without recursing and without any failure path. -/
def generateType : Expr → Except GenError String
  | .star x =>
    match generateType x with
    | .error e => .error e
    | .ok tx => .ok ("*" ++ tx)
  | .ident n => .ok n
  | .ellipsis elt => .ok ("..." ++ rawText elt)
  | .binary x op y =>
    if !op.isOperator then .error .unknownFieldType
    else
      match generateType x with
      | .error e => .error e
      | .ok tx =>
        match generateType y with
        | .error e => .error e
        | .ok ty => .ok (tx ++ " " ++ op.str ++ " " ++ ty)
  | .unary op x => .ok (op.str ++ rawText x)
  | .index x idx =>
    match generateType x with
    | .error e => .error e
    | .ok tident =>
      match generateType idx with
      | .error e => .error e
      | .ok texpr => .ok (tident ++ "[" ++ texpr ++ "]")
  | .indexList x is =>
    match generateType x with
    | .error e => .error e
    | .ok tident =>
      match generateTypeIndices is with
      | .error e => .error e
      | .ok exprs => .ok (tident ++ "[" ++ String.intercalate "," exprs ++ "]")
  | .selector _ _ => .error .unknownFieldType
  | .arrayType _ => .error .unknownFieldType

/-- The loop over `t.Indices` inside the `*ast.IndexListExpr` case of
`generateType`, with its early error return. -/
def generateTypeIndices : List Expr → Except GenError (List String)
  | [] => .ok []
  | t :: rest =>
    match generateType t with
    | .error e => .error e
    | .ok s =>
      match generateTypeIndices rest with
      | .error e => .error e
      | .ok ss => .ok (s :: ss)
end

/-- Models `*ast.Field`: a group of names sharing one type expression, as in
the parameter group `a, b int` (one field, two names). -/
structure Field where
  names : List String
  type : Expr

/-- Embeds `generateReceiver`: `none` input models a nil `fn.Recv`.  The Go
code indexes `recv.List[0].Names[0]` without bounds checks, so an empty
field list or an unnamed receiver panics; those inputs map to the outer
`none`. -/
def generateReceiver : Option (List Field) → Option (Except GenError (String × String))
  | none => some (.ok ("", ""))
  | some [] => none
  | some (f :: _) =>
    match f.names with
    | [] => none
    | n :: _ =>
      match generateType f.type with
      | .error e => some (.error e)
      | .ok decl =>
        let name := if n = "_" then "t" else n
        some (.ok ("(" ++ name ++ " " ++ decl ++ ")", name ++ "."))

/-- The loop body of `generateParams`: collects, per field, the first
declared name and the pair `name type`, with the Go loop's early error
return; a field with no names panics at `i.Names[0]` (outer `none`). -/
def paramsLoop : List Field → Option (Except GenError (List String × List String))
  | [] => some (.ok ([], []))
  | f :: rest =>
    match f.names with
    | [] => none
    | n :: _ =>
      match generateType f.type with
      | .error e => some (.error e)
      | .ok t =>
        match paramsLoop rest with
        | none => none
        | some (.error e) => some (.error e)
        | some (.ok (ns, ts)) => some (.ok (n :: ns, (n ++ " " ++ t) :: ts))

/-- Embeds `generateParams`: declaration text is the comma-joined
`name type` pairs, usage text the comma-joined bare names.  Only
`i.Names[0]` of each field group is used, exactly as in the source. -/
def generateParams (params : Option (List Field)) :
    Option (Except GenError (String × String)) :=
  match params with
  | none => some (.ok ("", ""))
  | some [] => some (.ok ("", ""))
  | some fields =>
    match paramsLoop fields with
    | none => none
    | some (.error e) => some (.error e)
    | some (.ok (names, types)) =>
      some (.ok (String.intercalate "," types, String.intercalate "," names))

/-- The type-reconstruction loop of `generateReturns`, over the fields'
type expressions, with the Go loop's early error return. -/
def genTypes : List Expr → Except GenError (List String)
  | [] => .ok []
  | t :: rest =>
    match generateType t with
    | .error e => .error e
    | .ok s =>
      match genTypes rest with
      | .error e => .error e
      | .ok ss => .ok (s :: ss)

/-- The synthesized result-variable names `var0`, `var1`, … of
`generateReturns` (before the last is renamed to `err`). -/
def varNames (n : Nat) : List String :=
  (List.range n).map (fun i => "var" ++ toString i)

/-- Embeds `generateReturns`: fails with `errNoReturnValues` on a nil or
empty result list; reconstructs every result type (early-returning the
first reconstruction error); then fails with `errNoErrorReturn` when the
last reconstructed type is not the literal `error`; otherwise returns the
reconstructed types together with `var0, …, var(k-2), err`. -/
def generateReturns (rets : Option (List Field)) :
    Except GenError (List String × List String) :=
  match rets with
  | none => .error .noReturnValues
  | some [] => .error .noReturnValues
  | some (r :: rs) =>
    match genTypes ((r :: rs).map Field.type) with
    | .error e => .error e
    | .ok types =>
      if types.getLast? ≠ some "error" then .error .noErrorReturn
      else .ok (types, (varNames (r :: rs).length).dropLast ++ ["err"])

/-- The loop body of `generateTypeParams`, same shape as `paramsLoop`
(first name of each group, `name constraint` pairs, early error return,
panic on an unnamed group). -/
def typeParamsLoop : List Field → Option (Except GenError (List String × List String)) :=
  paramsLoop

/-- Embeds `generateTypeParams`: bracketed declaration text
`[T C, …]` and usage text `[T, …]`, both empty when the list is nil or
empty. -/
def generateTypeParams (typeParams : Option (List Field)) :
    Option (Except GenError (String × String)) :=
  match typeParams with
  | none => some (.ok ("", ""))
  | some [] => some (.ok ("", ""))
  | some fields =>
    match typeParamsLoop fields with
    | none => none
    | some (.error e) => some (.error e)
    | some (.ok (names, types)) =>
      if names.length > 0 then
        some (.ok ("[" ++ String.intercalate "," types ++ "]",
                   "[" ++ String.intercalate "," names ++ "]"))
      else some (.ok ("", ""))

/-- Embeds `mustName`.  Go takes the one-byte slice `name[:1]` and compares
it with its `strings.ToUpper` image; `Char.toUpper` models `ToUpper` on the
ASCII identifiers this repository works with.  Go panics on the empty name
(slice out of range), but only nonempty parsed identifiers ever reach this
function; the empty case is left on the `Must` branch and never used by any
theorem. -/
def mustName (name : String) : String :=
  let f := name.data.take 1
  if f.map Char.toUpper = f then "Must" ++ name
  else "must" ++ String.mk (f.map Char.toUpper) ++ String.mk (name.data.drop 1)


/-- Models `strings.HasPrefix` through the character lists (byte-exact for
the ASCII data this program handles). -/
def hasPref (s pre : String) : Bool := pre.data.isPrefixOf s.data

/-- Models `strings.TrimPrefix`. -/
def trimPref (s pre : String) : String :=
  if hasPref s pre then String.mk (s.data.drop pre.data.length) else s

/-- Models the Go byte-slice `s[n:]` for ASCII strings. -/
def strDrop (s : String) (n : Nat) : String := String.mk (s.data.drop n)

/-- Models `strings.TrimSpace` (restricted to ASCII whitespace). -/
def trimSpace (s : String) : String :=
  String.mk (((s.data.dropWhile Char.isWhitespace).reverse.dropWhile
    Char.isWhitespace).reverse)

/-- Models one `*ast.Comment`: its position `Slash` and its raw `Text`
field, which includes the leading `//`. -/
structure Comment where
  pos : Nat
  text : String

/-- Models the parts of an `*ast.BlockStmt` the scanner reads: the brace
positions and the position of the first node that `ast.Inspect` yields
inside the body (`none` when the body contains no nodes at all, e.g. `\x7b\x7d`
or a body holding only comments — comments are not syntax-tree children). -/
structure Body where
  lbrace : Nat
  rbrace : Nat
  firstNodePos : Option Nat

/-- Models `*ast.FuncDecl`: name, optional receiver / type parameters /
parameters / results (each a possibly-nil `*ast.FieldList`), and the
possibly-nil body. -/
structure FuncDecl where
  name : String
  recv : Option (List Field)
  typeParams : Option (List Field)
  params : Option (List Field)
  results : Option (List Field)
  body : Option Body

/-- The comment-in-body-span test of `walkCode`:
`j.Pos() >= fn.Body.Lbrace && j.Pos() <= fn.Body.Rbrace`. -/
def inSpan (body : Body) (c : Comment) : Bool :=
  decide (body.lbrace ≤ c.pos ∧ c.pos ≤ body.rbrace)

/-- Embeds the per-declaration part of `walkCode` (the tag scanner).
Result: outer `none` models a runtime panic; `some none` models a silently
skipped declaration; `some (some nm)` models a tag match with resolved
wrapper name `nm`.  The comment list is the file's comment list flattened
in source order, as the nested loops over `file.Comments` traverse it.
The expression `fn.Body.Lbrace` is evaluated only inside the loop, while a
comment is being examined: with a nil body the scan panics at the first
comment of the file (whatever its position), but when the file has no
comments at all the loop runs zero times, `firstComment` stays nil, and
the bodiless declaration is skipped with a defined result.  The first body
node is dereferenced only after some comment was found inside the span. -/
def scanFunc (comments : List Comment) (tagComment : String) (fn : FuncDecl) :
    Option (Option String) :=
  match fn.body with
  | none =>
    match comments with
    | [] => some none
    | _ :: _ => none
  | some body =>
    match comments.find? (inSpan body) with
    | none => some none
    | some firstComment =>
      match body.firstNodePos with
      | none => none
      | some firstNodePos =>
        if firstNodePos < firstComment.pos then some none
        else
          let pref := "//" ++ tagComment
          if hasPref firstComment.text pref then
            let newName := trimPref firstComment.text pref
            if hasPref newName ":" then some (some (trimSpace (strDrop newName 1)))
            else if newName = "" then some (some (mustName fn.name))
            else some (some newName)
          else some none

/-- The result-declaration slot `generator.generateMust` emits between the
second pair of parentheses: `strings.Join(retsDecl[:len(retsDecl)-1], ",")`
— the reconstructed result types with the trailing slot removed. -/
def mustResultDecl (retsDecl : List String) : String :=
  String.intercalate "," (retsDecl.take (retsDecl.length - 1))

/-- Embeds `generator.generateMust`, the wrapper synthesizer.  The Go method
reports extraction failures through `showError` (print + `os.Exit(-1)`);
here such a failure is the `Except.error` value, which aborts the run with
the same first-failure-wins behaviour.  The `ok` value is the exact text
appended to the output buffer. -/
def generateMust (newName : String) (fnDecl : FuncDecl) :
    Option (Except GenError String) :=
  match generateTypeParams fnDecl.typeParams with
  | none => none
  | some (.error e) => some (.error e)
  | some (.ok (typeParamsDecl, typeParamsUse)) =>
    match generateReceiver fnDecl.recv with
    | none => none
    | some (.error e) => some (.error e)
    | some (.ok (recvDecl, recvUse)) =>
      match generateParams fnDecl.params with
      | none => none
      | some (.error e) => some (.error e)
      | some (.ok (paramsDecl, paramsUse)) =>
        match generateReturns fnDecl.results with
        | .error e => some (.error e)
        | .ok (retsDecl, retsVars) =>
          let rv := retsVars.take (retsVars.length - 1)
          some (.ok (
            "// " ++ newName ++ " has the behavior of " ++ fnDecl.name ++
              ", except it panics any error\n" ++
            "func " ++ recvDecl ++ " " ++ newName ++ typeParamsDecl ++ "(" ++
              paramsDecl ++ ") (" ++ mustResultDecl retsDecl ++ ") \x7b\n" ++
            String.intercalate "," retsVars ++ " := " ++ recvUse ++ fnDecl.name ++
              typeParamsUse ++ "(" ++ paramsUse ++ ")\nif err!=nil\x7bpanic(err)\x7d\n" ++
            (if rv.length > 0 then "return " ++ String.intercalate "," rv else "") ++
            "\x7d\n\n"))

/-- The constant header `generator.generateHead` writes before walking the
package. -/
def generateHead (pkgName : String) : String :=
  "// Code generated - DO NOT EDIT.\n// This file is auto generated by gen_must and any manual changes will be lost.\n\n" ++
  "package " ++ pkgName ++ "\n\n"

/-- Models one file of `pkg.Syntax`: its comments flattened in source
order, and its function declarations in the pre-order in which
`ast.Inspect` encounters them (document order). -/
structure GoFile where
  comments : List Comment
  decls : List FuncDecl

/-- What one visited declaration contributes to the run: `none` models a
scanner panic or a synthesizer panic, `some (.error e)` a fatal abort,
`some (.ok s)` the text appended for it (`""` when the declaration is
skipped). -/
def declOutput (tag : String) (comments : List Comment) (fn : FuncDecl) :
    Option (Except GenError String) :=
  match scanFunc comments tag fn with
  | none => none
  | some none => some (.ok "")
  | some (some nm) =>
    match generateMust nm fn with
    | none => none
    | some (.error e) => some (.error e)
    | some (.ok s) => some (.ok s)

/-- The text a clean declaration contributes (and `""` on the non-clean
cases, which the ordering theorem's hypotheses exclude). -/
def declOutputStr (tag : String) (comments : List Comment) (fn : FuncDecl) : String :=
  match declOutput tag comments fn with
  | some (.ok s) => s
  | _ => ""

/-- The walk over one file's declarations, threading the output buffer
`acc`; stops at the first panic or fatal error. -/
def runDecls (tag : String) (comments : List Comment) :
    List FuncDecl → String → Option (Except GenError String)
  | [], acc => some (.ok acc)
  | fn :: rest, acc =>
    match declOutput tag comments fn with
    | none => none
    | some (.error e) => some (.error e)
    | some (.ok s) => runDecls tag comments rest (acc ++ s)

/-- Embeds `walkCode` composed with `generator.generateMust`: files are
visited in `pkg.Syntax` order, declarations within a file in pre-order;
the single output buffer `acc` is appended to in that traversal order. -/
def runGen (tag : String) : List GoFile → String → Option (Except GenError String)
  | [], acc => some (.ok acc)
  | file :: rest, acc =>
    match runDecls tag file.comments file.decls acc with
    | none => none
    | some (.error e) => some (.error e)
    | some (.ok acc2) => runGen tag rest acc2

/-- Concatenation without separator, as the output buffer concatenates the
per-declaration texts. -/
def strJoin : List String → String
  | [] => ""
  | s :: rest => s ++ strJoin rest


/-- Bridge between the `UInt32` comparison in `Char.isLower` and the `Nat`
comparison in `Char.toUpper`. -/
theorem char_le_toNat_left (c : Char) : ((97 : UInt32) ≤ c.val) ↔ (97 ≤ c.toNat) := by
  rw [UInt32.le_def, BitVec.le_def]
  exact ⟨fun h => h, fun h => h⟩

/-- Companion bridge for the upper bound. -/
theorem char_le_toNat_right (c : Char) : (c.val ≤ (122 : UInt32)) ↔ (c.toNat ≤ 122) := by
  rw [UInt32.le_def, BitVec.le_def]
  exact ⟨fun h => h, fun h => h⟩

/-- `Char.isLower` in terms of the code point. -/
theorem isLower_iff_toNat (c : Char) :
    c.isLower = true ↔ (97 ≤ c.toNat ∧ c.toNat ≤ 122) := by
  simp only [Char.isLower, Bool.and_eq_true, decide_eq_true_eq, ge_iff_le]
  rw [char_le_toNat_left, char_le_toNat_right]

/-- `Char.ofNat` to `toNat` round trip for code points below the surrogate
range. -/
theorem char_toNat_ofNat {m : Nat} (h : m < 55296) : (Char.ofNat m).toNat = m := by
  rw [Char.ofNat, dif_pos (Or.inl h)]
  rfl

/-- Upper-casing a non-lower-case character leaves it unchanged. -/
theorem toUpper_of_not_lower {c : Char} (h : c.isLower = false) : c.toUpper = c := by
  simp only [Char.toUpper]
  rw [if_neg]
  intro hcond
  rw [← isLower_iff_toNat] at hcond
  rw [hcond] at h
  cases h

/-- Upper-casing a lower-case character changes it. -/
theorem toUpper_ne_of_lower {c : Char} (h : c.isLower = true) : c.toUpper ≠ c := by
  have hn := (isLower_iff_toNat c).mp h
  simp only [Char.toUpper]
  rw [if_pos ⟨hn.1, hn.2⟩]
  intro heq
  have hv : (Char.ofNat (c.toNat - 32)).toNat = c.toNat - 32 :=
    char_toNat_ofNat (by omega)
  rw [heq] at hv
  omega

/-- Every error return of `generateType` (and of the index loop inside it)
is `errUnknownFieldType`: the two literal error returns use that value and
all other error paths only propagate.  Proved by strong induction on the
size of the expression, covering the nested list recursion. -/
theorem generateTypeErrAux : ∀ n : Nat,
    (∀ t : Expr, sizeOf t ≤ n → ∀ e, generateType t = .error e → e = .unknownFieldType) ∧
    (∀ l : List Expr, sizeOf l ≤ n → ∀ e,
      generateTypeIndices l = .error e → e = .unknownFieldType) := by
  intro n
  induction n with
  | zero =>
    refine ⟨fun t ht => absurd ht ?_, fun l hl e hl2 => ?_⟩
    · cases t <;> simp
    · cases l with
      | nil => simp [generateTypeIndices] at hl2
      | cons a as => simp at hl
  | succ n ih =>
    obtain ⟨ihe, ihl⟩ := ih
    constructor
    · intro t ht e hgen
      cases t with
      | star x =>
        rw [generateType] at hgen
        cases hx : generateType x with
        | error e2 =>
          rw [hx] at hgen
          simp only [Except.error.injEq] at hgen
          subst hgen
          exact ihe x (by simp at ht; omega) _ hx
        | ok s => rw [hx] at hgen; simp at hgen
      | ident nm => simp [generateType] at hgen
      | ellipsis elt => simp [generateType] at hgen
      | binary x op y =>
        rw [generateType] at hgen
        by_cases hop : op.isOperator
        · simp only [hop, Bool.not_true, Bool.false_eq_true, if_false] at hgen
          cases hx : generateType x with
          | error e2 =>
            rw [hx] at hgen
            simp only [Except.error.injEq] at hgen
            subst hgen
            exact ihe x (by simp at ht; omega) _ hx
          | ok sx =>
            rw [hx] at hgen
            cases hy : generateType y with
            | error e2 =>
              rw [hy] at hgen
              simp only [Except.error.injEq] at hgen
              subst hgen
              exact ihe y (by simp at ht; omega) _ hy
            | ok sy => rw [hy] at hgen; simp at hgen
        · simp only [Bool.not_eq_true] at hop
          simp only [hop, Bool.not_false, if_true, Except.error.injEq] at hgen
          exact hgen.symm
      | unary op x => simp [generateType] at hgen
      | index x idx =>
        rw [generateType] at hgen
        cases hx : generateType x with
        | error e2 =>
          rw [hx] at hgen
          simp only [Except.error.injEq] at hgen
          subst hgen
          exact ihe x (by simp at ht; omega) _ hx
        | ok sx =>
          rw [hx] at hgen
          cases hy : generateType idx with
          | error e2 =>
            rw [hy] at hgen
            simp only [Except.error.injEq] at hgen
            subst hgen
            exact ihe idx (by simp at ht; omega) _ hy
          | ok sy => rw [hy] at hgen; simp at hgen
      | indexList x is =>
        rw [generateType] at hgen
        cases hx : generateType x with
        | error e2 =>
          rw [hx] at hgen
          simp only [Except.error.injEq] at hgen
          subst hgen
          exact ihe x (by simp at ht; omega) _ hx
        | ok sx =>
          rw [hx] at hgen
          cases his : generateTypeIndices is with
          | error e2 =>
            rw [his] at hgen
            simp only [Except.error.injEq] at hgen
            subst hgen
            exact ihl is (by simp at ht; omega) _ his
          | ok ss => rw [his] at hgen; simp at hgen
      | selector x sel =>
        rw [generateType] at hgen
        simp only [Except.error.injEq] at hgen
        exact hgen.symm
      | arrayType elt =>
        rw [generateType] at hgen
        simp only [Except.error.injEq] at hgen
        exact hgen.symm
    · intro l hl e hgen
      cases l with
      | nil => simp [generateTypeIndices] at hgen
      | cons a as =>
        rw [generateTypeIndices] at hgen
        cases ha : generateType a with
        | error e2 =>
          rw [ha] at hgen
          simp only [Except.error.injEq] at hgen
          subst hgen
          exact ihe a (by simp at hl; omega) _ ha
        | ok s =>
          rw [ha] at hgen
          cases has : generateTypeIndices as with
          | error e2 =>
            rw [has] at hgen
            simp only [Except.error.injEq] at hgen
            subst hgen
            exact ihl as (by simp at hl; omega) _ has
          | ok ss => rw [has] at hgen; simp at hgen

/-- Specialization: `generateType` only ever fails with
`errUnknownFieldType`. -/
theorem generateType_error_eq {t : Expr} {e : GenError}
    (h : generateType t = .error e) : e = .unknownFieldType :=
  (generateTypeErrAux (sizeOf t)).1 t le_rfl e h

/-- The type loop of `generateReturns` only ever fails with
`errUnknownFieldType` (it propagates `generateType` failures). -/
theorem genTypes_error_eq : ∀ {l : List Expr} {e : GenError},
    genTypes l = .error e → e = .unknownFieldType := by
  intro l
  induction l with
  | nil => intro e h; simp [genTypes] at h
  | cons a as ih =>
    intro e h
    rw [genTypes] at h
    cases ha : generateType a with
    | error e2 =>
      rw [ha] at h
      simp only [Except.error.injEq] at h
      subst h
      exact generateType_error_eq ha
    | ok s =>
      rw [ha] at h
      cases has : genTypes as with
      | error e2 =>
        rw [has] at h
        simp only [Except.error.injEq] at h
        subst h
        exact ih has
      | ok ss => rw [has] at h; simp at h

/-- The type loop succeeds exactly when every element reconstructs, and
then returns the reconstructions positionally. -/
theorem genTypes_ok_length : ∀ {l : List Expr} {ts : List String},
    genTypes l = .ok ts → ts.length = l.length := by
  intro l
  induction l with
  | nil => intro ts h; simp [genTypes] at h; simp [← h]
  | cons a as ih =>
    intro ts h
    rw [genTypes] at h
    cases ha : generateType a with
    | error e2 => rw [ha] at h; simp at h
    | ok s =>
      rw [ha] at h
      cases has : genTypes as with
      | error e2 => rw [has] at h; simp at h
      | ok ss =>
        rw [has] at h
        simp only [Except.ok.injEq] at h
        subst h
        simp [ih has]

/-- Positional correspondence of the type loop's output with its input. -/
theorem genTypes_ok_get : ∀ {l : List Expr} {ts : List String},
    genTypes l = .ok ts → ∀ i (hi : i < l.length) (hi2 : i < ts.length),
      generateType (l.get ⟨i, hi⟩) = .ok (ts.get ⟨i, hi2⟩) := by
  intro l
  induction l with
  | nil => intro ts h i hi; simp at hi
  | cons a as ih =>
    intro ts h i hi hi2
    rw [genTypes] at h
    cases ha : generateType a with
    | error e2 => rw [ha] at h; simp at h
    | ok s =>
      rw [ha] at h
      cases has : genTypes as with
      | error e2 => rw [has] at h; simp at h
      | ok ss =>
        rw [has] at h
        simp only [Except.ok.injEq] at h
        subst h
        cases i with
        | zero => simpa using ha
        | succ j =>
          simp only [List.get_cons_succ]
          exact ih has j (by simpa using hi) (by simpa using hi2)

/-- C1 (code bug): the claim expects both parameters `a` and `b` of
`func Divide(a, b int) (int, error)` in the wrapper's parameter declaration
and forwarded call.  In the Go syntax tree `a, b int` is one field with two
names, and `generateParams` reads only `i.Names[0]` of each field, so the
generated wrapper declares only `a int` and forwards only `a`: the run on a
file containing the tagged `Divide` produces a wrapper whose parameter list
and call argument list both lack `b` (the emitted call `Divide(a)` cannot
even compile against the original).  The theorem evaluates the embedded
generator at exactly this failing input: the comment `//@gen_must` at
position 120 lies in the body span (100, 200) before the first body node at
position 150, so the tag matches and the shown text is emitted. -/
theorem claim1_divide_generated_text :
    generateParams (some [⟨["a", "b"], .ident "int"⟩]) = some (.ok ("a int", "a")) ∧
    runGen "@gen_must"
      [⟨[⟨120, "//@gen_must"⟩],
        [⟨"Divide", none, none, some [⟨["a", "b"], .ident "int"⟩],
          some [⟨[], .ident "int"⟩, ⟨[], .ident "error"⟩],
          some ⟨100, 200, some 150⟩⟩]⟩] "" =
      some (.ok ("// MustDivide has the behavior of Divide, except it panics any error\nfunc  MustDivide(a int) (int) \x7b\nvar0,err := Divide(a)\nif err!=nil\x7bpanic(err)\x7d\nreturn var0\x7d\n\n")) := by
  exact ⟨rfl, rfl⟩

/-- C4 counterexample: the claim says every original name without an
upper-case first character gets the `must` prefix with its first character
upper-cased.  The legal Go function name `_go` has a non-upper-case first
character, so the claim demands `must_go`; `mustName` (which tests
`strings.ToUpper(f) == f`, true for the underscore) produces `Must_go`. -/
theorem claim4_counterexample :
    Char.isUpper '_' = false ∧ "_go".data.head? = some '_' ∧
    mustName "_go" = "Must_go" ∧ "Must_go" ≠ "must_go" := by
  refine ⟨by decide, by decide, by decide, by decide⟩

/-- C4 (amended): with an empty marker remainder, the wrapper name is
derived from the original name as follows: if the first character is not a
lower-case letter (upper-case letters, and characters such as `_` that are
unchanged by upper-casing), the derived name is `Must` prepended to the
original; if the first character is a lower-case letter, it is `must`
followed by the original name with its first character upper-cased
(`doThing` → `mustDoThing`, `DoThing` → `MustDoThing`). -/
theorem claim4_amended_name_derivation (name : String) (c : Char) (cs : List Char)
    (h : name.data = c :: cs) :
    (c.isLower = false → mustName name = "Must" ++ name) ∧
    (c.isLower = true → mustName name = "must" ++ String.mk [c.toUpper] ++ String.mk cs) := by
  constructor
  · intro hlow
    rw [mustName, h]
    simp only [List.take, List.map]
    rw [toUpper_of_not_lower hlow]
    simp
  · intro hlow
    rw [mustName, h]
    simp only [List.take, List.map, List.drop]
    rw [if_neg]
    intro heq
    simp only [List.cons.injEq, and_true] at heq
    exact toUpper_ne_of_lower hlow heq

/-- Witness for C4's amended theorem at the spec's own examples. -/
theorem claim4_witness :
    mustName "doThing" = "must" ++ String.mk ['d'.toUpper] ++ String.mk "oThing".data ∧
    mustName "DoThing" = "Must" ++ "DoThing" :=
  ⟨(claim4_amended_name_derivation "doThing" 'd' "oThing".data (by decide)).2 (by decide),
   (claim4_amended_name_derivation "DoThing" 'D' "oThing".data (by decide)).1 (by decide)⟩

/-- Positional correspondence of the type loop's output with its input, in
`getElem?` form. -/
theorem genTypes_ok_getQ : ∀ {l : List Expr} {ts : List String},
    genTypes l = .ok ts → ∀ i, i < l.length →
      ∃ t s, l[i]? = some t ∧ ts[i]? = some s ∧ generateType t = .ok s := by
  intro l
  induction l with
  | nil => intro ts h i hi; simp at hi
  | cons a as ih =>
    intro ts h i hi
    rw [genTypes] at h
    cases ha : generateType a with
    | error e2 => rw [ha] at h; simp at h
    | ok s =>
      rw [ha] at h
      cases has : genTypes as with
      | error e2 => rw [has] at h; simp at h
      | ok ss =>
        rw [has] at h
        simp only [Except.ok.injEq] at h
        subst h
        cases i with
        | zero => exact ⟨a, s, by simp, by simp, ha⟩
        | succ j =>
          obtain ⟨t, s2, h1, h2, h3⟩ := ih has j (by simpa using hi)
          exact ⟨t, s2, by simpa using h1, by simpa using h2, h3⟩

/-- C5 (confirmed): for a tagged function with `k` results whose last
reconstructs to `error`, the result-declaration slot the synthesizer emits
(`mustResultDecl`, i.e. `strings.Join(retsDecl[:len-1], ",")` in
`generateMust`) joins exactly the first `k-1` reconstructed result types,
in original declared order; the trailing `error` slot is not among them. -/
theorem claim5_result_arity (rs : List Field) (ts : List String)
    (hg : genTypes (rs.map Field.type) = .ok ts)
    (hlast : ts.getLast? = some "error") :
    ∃ vars, generateReturns (some rs) = .ok (ts, vars) ∧
      mustResultDecl ts = String.intercalate "," (ts.take (rs.length - 1)) ∧
      (ts.take (rs.length - 1)).length = rs.length - 1 ∧
      ∀ i, i < rs.length - 1 →
        ∃ f s, rs[i]? = some f ∧ (ts.take (rs.length - 1))[i]? = some s ∧
          generateType f.type = .ok s := by
  have hlen : ts.length = rs.length := by simpa using genTypes_ok_length hg
  have hts_ne : ts ≠ [] := by
    intro h
    rw [h] at hlast
    simp at hlast
  obtain ⟨r, rs2, rfl⟩ : ∃ r rs2, rs = r :: rs2 := by
    cases rs with
    | nil =>
      exfalso
      exact hts_ne (List.length_eq_zero.mp (by simpa using hlen))
    | cons a as => exact ⟨a, as, rfl⟩
  refine ⟨(varNames (r :: rs2).length).dropLast ++ ["err"], ?_, ?_, ?_, ?_⟩
  · rw [generateReturns, hg]
    dsimp only
    rw [if_neg (by simpa using hlast)]
  · rw [mustResultDecl, hlen]
  · rw [List.length_take]
    omega
  · intro i hi
    have hi2 : i < (List.map Field.type (r :: rs2)).length := by
      simp only [List.length_map, List.length_cons]
      simp only [List.length_cons] at hi
      omega
    obtain ⟨t, s, h1, h2, h3⟩ := genTypes_ok_getQ hg i hi2
    rw [List.getElem?_map] at h1
    obtain ⟨f, hf, hft⟩ := Option.map_eq_some'.mp h1
    refine ⟨f, s, hf, ?_, by rw [hft]; exact h3⟩
    rw [List.getElem?_take_of_lt hi]
    exact h2

/-- Witness for C5 at the results `(int, string, error)`. -/
theorem claim5_witness :
    (["int", "string", "error"].take 2).length = 2 ∧
    mustResultDecl ["int", "string", "error"] =
      String.intercalate "," (["int", "string", "error"].take 2) := by
  obtain ⟨vars, h1, h2, h3, h4⟩ := claim5_result_arity
    [⟨[], .ident "int"⟩, ⟨[], .ident "string"⟩, ⟨[], .ident "error"⟩]
    ["int", "string", "error"] rfl rfl
  exact ⟨h3, h2⟩

/-- Rebuilding a string from its character list. -/
theorem mk_data (s : String) : String.mk s.data = s := by
  cases s
  rfl

/-- A list is a (boolean) prefix of itself followed by anything. -/
theorem isPrefixOf_append_self (l1 l2 : List Char) : l1.isPrefixOf (l1 ++ l2) = true := by
  rw [ List.isPrefixOf_iff_prefix]
  exact List.prefix_append l1 l2

/-- `strings.HasPrefix` holds on an explicit concatenation. -/
theorem hasPref_append (s t : String) : hasPref (s ++ t) s = true := by
  simp only [hasPref, String.data_append]
  exact isPrefixOf_append_self _ _

/-- `strings.TrimPrefix` removes an explicit prefix. -/
theorem trimPref_append (s t : String) : trimPref (s ++ t) s = t := by
  rw [trimPref, hasPref_append]
  simp only [if_true, String.data_append, List.drop_left, mk_data]

/-- The byte slice `s[1:]` on a string starting with the one-byte `:`. -/
theorem strDrop_colon (t : String) : strDrop (":" ++ t) 1 = t := by
  rw [strDrop, String.data_append]
  exact mk_data t

/-- C3 (confirmed): under the totality preconditions (a present body with a
first node, and — as in any parsed file — comment positions distinct from
node positions), the scanner resolves a wrapper name for a declaration if
and only if the first comment of the file lying inside the body span
exists, precedes the first syntax node of the body, and carries the
`//<marker>` prefix.  In particular a marker comment placed after the first
statement never triggers generation. -/
theorem claim3_marker_position_iff
    (comments : List Comment) (tag : String) (fn : FuncDecl) (body : Body) (p : Nat)
    (hb : fn.body = some body)
    (hp : body.firstNodePos = some p)
    (hdist : ∀ c ∈ comments, c.pos ≠ p) :
    (∃ nm, scanFunc comments tag fn = some (some nm)) ↔
    (∃ pre c post, comments = pre ++ c :: post ∧
      (∀ c2 ∈ pre, inSpan body c2 = false) ∧
      inSpan body c = true ∧ c.pos < p ∧
      hasPref c.text ("//" ++ tag) = true) := by
  rw [scanFunc.eq_def, hb]
  dsimp only
  cases hfind : comments.find? (inSpan body) with
  | none =>
    constructor
    · rintro ⟨nm, hnm⟩
      simp at hnm
    · rintro ⟨pre, c, post, hsplit, hpre, hc, -, -⟩
      have hmem : c ∈ comments := by
        rw [hsplit]
        exact List.mem_append_right _ (List.mem_cons_self _ _)
      exact absurd hc (List.find?_eq_none.mp hfind c hmem)
  | some c0 =>
    rw [hp]
    dsimp only
    have hmemc0 := List.mem_of_find?_eq_some hfind
    have hc0span := List.find?_some hfind
    by_cases hpos : p < c0.pos
    · rw [if_pos hpos]
      constructor
      · rintro ⟨nm, hnm⟩
        simp at hnm
      · rintro ⟨pre, c, post, hsplit, hpre, hc, hlt, -⟩
        have hfc : comments.find? (inSpan body) = some c :=
          List.find?_eq_some.mpr ⟨hc, pre, post, hsplit, fun a ha => by rw [hpre a ha]; rfl⟩
        rw [hfind] at hfc
        injection hfc with he
        subst he
        omega
    · rw [if_neg hpos]
      have hclt : c0.pos < p := by
        have := hdist c0 hmemc0
        omega
      by_cases hpref0 : hasPref c0.text ("//" ++ tag) = true
      · rw [if_pos hpref0]
        constructor
        · intro _
          obtain ⟨hspan, pre, post, hsplit, hprev⟩ := List.find?_eq_some.mp hfind
          refine ⟨pre, c0, post, hsplit, ?_, hspan, hclt, hpref0⟩
          intro c2 hc2
          have := hprev c2 hc2
          simpa using this
        · intro _
          split
          · exact ⟨_, rfl⟩
          · split
            · exact ⟨_, rfl⟩
            · exact ⟨_, rfl⟩
      · rw [if_neg hpref0]
        constructor
        · rintro ⟨nm, hnm⟩
          simp at hnm
        · rintro ⟨pre, c, post, hsplit, hpre, hc, -, hpref⟩
          have hfc : comments.find? (inSpan body) = some c :=
            List.find?_eq_some.mpr ⟨hc, pre, post, hsplit, fun a ha => by rw [hpre a ha]; rfl⟩
          rw [hfind] at hfc
          injection hfc with he
          subst he
          exact absurd hpref hpref0

/-- Witness for C3: a marker comment at position 12, inside the span
(10, 50) and before the first node at 20, triggers generation. -/
theorem claim3_witness :
    ∃ nm, scanFunc [⟨12, "//@gen_must"⟩] "@gen_must"
      ⟨"F", none, none, none, none, some ⟨10, 50, some 20⟩⟩ = some (some nm) :=
  (claim3_marker_position_iff [⟨12, "//@gen_must"⟩] "@gen_must"
      ⟨"F", none, none, none, none, some ⟨10, 50, some 20⟩⟩ ⟨10, 50, some 20⟩ 20 rfl rfl
      (by
        intro c hc
        have : c = ⟨12, "//@gen_must"⟩ := by simpa using hc
        rw [this]
        decide)).mpr
    ⟨[], ⟨12, "//@gen_must"⟩, [], rfl, by simp, by decide, by decide, by decide⟩

/-- C6 (confirmed): when the text after the marker prefix begins with a
colon, the resolved wrapper name is exactly that remainder with the colon
dropped and surrounding whitespace trimmed, used verbatim instead of the
casing-based derivation. -/
theorem claim6_explicit_name
    (comments : List Comment) (tag : String) (fn : FuncDecl) (body : Body)
    (c : Comment) (p : Nat) (rest : String)
    (hb : fn.body = some body)
    (hfind : comments.find? (inSpan body) = some c)
    (hp : body.firstNodePos = some p)
    (hpos : ¬ p < c.pos)
    (htext : c.text = "//" ++ tag ++ ":" ++ rest) :
    scanFunc comments tag fn = some (some (trimSpace rest)) := by
  rw [scanFunc.eq_def, hb]
  dsimp only
  rw [hfind]
  dsimp only
  rw [hp]
  dsimp only
  rw [if_neg hpos]
  have hassoc : c.text = ("//" ++ tag) ++ (":" ++ rest) := by
    rw [htext, String.append_assoc]
  rw [hassoc]
  simp only [hasPref_append, trimPref_append, strDrop_colon, if_true]

/-- Witness for C6: the spec's explicit-rename scenario
`//@gen_must: SafeDivide` produces the wrapper name `SafeDivide`. -/
theorem claim6_witness :
    scanFunc [⟨12, "//@gen_must: SafeDivide"⟩] "@gen_must"
      ⟨"Divide", none, none, none, none, some ⟨10, 50, some 20⟩⟩ =
      some (some "SafeDivide") := by
  have h := claim6_explicit_name [⟨12, "//@gen_must: SafeDivide"⟩] "@gen_must"
    ⟨"Divide", none, none, none, none, some ⟨10, 50, some 20⟩⟩ ⟨10, 50, some 20⟩
    ⟨12, "//@gen_must: SafeDivide"⟩ 20 " SafeDivide" rfl rfl rfl (by decide) rfl
  rw [h]
  decide

/-- C10 counterexample: the claim says the scan is total *only* when every
visited declaration has a non-nil body — a declaration without a body is
supposed to have no defined result.  But `fn.Body.Lbrace` is dereferenced
only inside the loop over the file's comments, so in a file with no
comments the loop runs zero times and a bodiless declaration is skipped
with a perfectly defined result. -/
theorem claim10_counterexample :
    (⟨"F", none, none, none, none, none⟩ : FuncDecl).body = none ∧
    scanFunc [] "@gen_must" ⟨"F", none, none, none, none, none⟩ = some none ∧
    (scanFunc [] "@gen_must" ⟨"F", none, none, none, none, none⟩).isSome = true :=
  ⟨rfl, rfl, rfl⟩

/-- C10 (amended): the scanner has a defined result for a declaration
exactly when either the declaration has a body and, whenever some comment
of the file lies within the body span, the body contains at least one
syntax node; or the declaration has no body and the file contains no
comments at all.  The body's brace positions are dereferenced without nil
checks, but only while a comment is being examined, so a nil body panics
exactly when the file has at least one comment; the first body node is
dereferenced, again without a nil check, once a comment is found inside
the span. -/
theorem claim10_amended_totality_iff (comments : List Comment) (tag : String) (fn : FuncDecl) :
    (scanFunc comments tag fn).isSome = true ↔
    ((∃ b, fn.body = some b ∧
        ((∃ c, c ∈ comments ∧ inSpan b c = true) → b.firstNodePos.isSome = true)) ∨
      (fn.body = none ∧ comments = [])) := by
  cases hb : fn.body with
  | none =>
    rw [scanFunc.eq_def, hb]
    cases comments with
    | nil =>
      constructor
      · intro _
        exact Or.inr ⟨rfl, rfl⟩
      · intro _
        rfl
    | cons c cs =>
      constructor
      · intro h
        simp at h
      · rintro (⟨b2, hb2, -⟩ | ⟨-, hcs⟩)
        · cases hb2
        · cases hcs
  | some b =>
    rw [scanFunc.eq_def, hb]
    dsimp only
    cases hfind : comments.find? (inSpan b) with
    | none =>
      dsimp only
      constructor
      · intro _
        exact Or.inl
          ⟨b, rfl, fun ⟨c, hc, hspan⟩ => absurd hspan (List.find?_eq_none.mp hfind c hc)⟩
      · intro _
        rfl
    | some c0 =>
      dsimp only
      have hc0mem := List.mem_of_find?_eq_some hfind
      have hc0span := List.find?_some hfind
      cases hp : b.firstNodePos with
      | none =>
        dsimp only
        constructor
        · intro h
          simp at h
        · rintro (⟨b2, hb2, himp⟩ | ⟨hcontra, -⟩)
          · injection hb2 with he
            subst he
            have hcontra := himp ⟨c0, hc0mem, hc0span⟩
            rw [hp] at hcontra
            simp at hcontra
          · cases hcontra
      | some p =>
        dsimp only
        constructor
        · intro _
          exact Or.inl ⟨b, rfl, fun _ => by rw [hp]; rfl⟩
        · intro _
          split
          · rfl
          · split
            · split
              · rfl
              · split
                · rfl
                · rfl
            · rfl

/-- Witness for C10's amended characterization: a node-free body with no
comment in its span is scanned with a defined (skip) result. -/
theorem claim10_witness :
    (scanFunc [] "@gen_must" ⟨"F", none, none, none, none, some ⟨1, 5, none⟩⟩).isSome = true :=
  (claim10_amended_totality_iff [] "@gen_must"
      ⟨"F", none, none, none, none, some ⟨1, 5, none⟩⟩).mpr
    (Or.inl ⟨⟨1, 5, none⟩, rfl, fun ⟨c, hc, _⟩ => by simp at hc⟩)

/-- C7 (confirmed): the receiver extractor yields empty declaration and
usage text for an absent (nil) receiver; for a present receiver it takes
the first name of the first field, renames a `_` receiver to the fixed
placeholder `t`, and yields declaration `(name Type)` and usage `name.`
with the type reconstructed by `generateType`. -/
theorem claim7_receiver :
    generateReceiver none = some (.ok ("", "")) ∧
    (∀ (n : String) (ns : List String) (ty : Expr) (rest : List Field) (T : String),
      generateType ty = .ok T →
      generateReceiver (some (⟨n :: ns, ty⟩ :: rest)) =
        some (.ok ("(" ++ (if n = "_" then "t" else n) ++ " " ++ T ++ ")",
                   (if n = "_" then "t" else n) ++ "."))) := by
  refine ⟨rfl, fun n ns ty rest T hT => ?_⟩
  simp only [generateReceiver, hT]

/-- Witness for C7 at a discard receiver `(_ *T)` and a named receiver
`(r T)`. -/
theorem claim7_witness :
    generateReceiver (some [⟨["_"], .star (.ident "T")⟩]) =
      some (.ok ("(" ++ (if "_" = "_" then "t" else "_") ++ " " ++ "*T" ++ ")",
                 (if "_" = "_" then "t" else "_") ++ ".")) ∧
    generateReceiver (some [⟨["r"], .ident "T"⟩]) =
      some (.ok ("(" ++ (if "r" = "_" then "t" else "r") ++ " " ++ "T" ++ ")",
                 (if "r" = "_" then "t" else "r") ++ ".")) :=
  ⟨claim7_receiver.2 "_" [] (.star (.ident "T")) [] "*T" rfl,
   claim7_receiver.2 "r" [] (.ident "T") [] "T" rfl⟩

/-- C8 (confirmed): the unary rule of the type reconstructor concatenates
the operator's text with the operand rendered verbatim by Go's default
formatting (`rawText`), never failing on the operand — unlike the other
recursive rules.  The conjuncts show: the rule's exact output for every
operand; that an operand rejected by the reconstructor (`[]int`) still
succeeds under the unary rule; that the pointer rule, by contrast,
recursively fails on that same operand; and that the verbatim rendering of
`*T` is the struct dump, not the reconstruction `*T`. -/
theorem claim8_unary_verbatim :
    (∀ (op : Op) (x : Expr), generateType (.unary op x) = .ok (op.str ++ rawText x)) ∧
    generateType (.arrayType (.ident "int")) = .error .unknownFieldType ∧
    (∀ op : Op, generateType (.unary op (.arrayType (.ident "int"))) =
      .ok (op.str ++ rawText (.arrayType (.ident "int")))) ∧
    generateType (.star (.arrayType (.ident "int"))) = .error .unknownFieldType ∧
    rawText (.star (.ident "T")) = "&\x7b0 T\x7d" ∧
    generateType (.star (.ident "T")) = .ok "*T" :=
  ⟨fun _ _ => rfl, rfl, fun _ => rfl, rfl, rfl, rfl⟩

/-- C2 counterexample: the claim states `NoErrorReturn` occurs if and only
if the result list is non-empty and the reconstructed type of the last
result is not `error`.  For the legal signature `([]int, int)` the last
result reconstructs to `int` (not `error`) and the list is non-empty, so
the claim demands `NoErrorReturn`; but the extractor hits the unsupported
first type before the last-type check and fails with `UnknownFieldType`. -/
theorem claim2_counterexample :
    generateReturns (some [⟨[], .arrayType (.ident "int")⟩, ⟨[], .ident "int"⟩]) =
      .error .unknownFieldType ∧
    GenError.unknownFieldType ≠ GenError.noErrorReturn ∧
    generateType (.ident "int") = .ok "int" ∧ "int" ≠ "error" :=
  ⟨rfl, by decide, rfl, by decide⟩

/-- C2 (amended): the results extractor fails with `NoReturnValues` iff the
result list is absent or empty; it fails with `NoErrorReturn` iff the list
is non-empty, every result type reconstructs successfully, and the last
reconstructed type is not the literal `error` (when some result type does
not reconstruct, the run fails with `UnknownFieldType` instead); and after
a tag has matched, a failing extraction is fatal for the run — the
synthesizer aborts with that error, it does not skip the declaration. -/
theorem claim2_amended_characterization (rets : Option (List Field)) :
    (generateReturns rets = .error .noReturnValues ↔ (rets = none ∨ rets = some [])) ∧
    (generateReturns rets = .error .noErrorReturn ↔
      (∃ rs ts, rets = some rs ∧ rs ≠ [] ∧ genTypes (rs.map Field.type) = .ok ts ∧
        ts.getLast? ≠ some "error")) ∧
    (∀ e nm name body, generateReturns rets = .error e →
      generateMust nm ⟨name, none, none, none, rets, body⟩ = some (.error e)) := by
  refine ⟨?_, ?_, ?_⟩
  · match rets with
    | none => simp [generateReturns]
    | some [] => simp [generateReturns]
    | some (r :: rs) =>
      rw [generateReturns]
      cases hg : genTypes ((r :: rs).map Field.type) with
      | error e =>
        have he := genTypes_error_eq hg
        subst he
        simp
      | ok ts =>
        dsimp only
        by_cases hlast : ts.getLast? = some "error"
        · rw [if_neg (by simpa using hlast)]
          simp
        · rw [if_pos (by simpa using hlast)]
          simp
  · match rets with
    | none =>
      rw [generateReturns]
      simp
    | some [] =>
      rw [generateReturns]
      constructor
      · intro h; cases h
      · rintro ⟨rs, ts, hrs, hne, _, _⟩
        cases hrs
        exact absurd rfl hne
    | some (r :: rs) =>
      rw [generateReturns]
      cases hg : genTypes ((r :: rs).map Field.type) with
      | error e =>
        have he := genTypes_error_eq hg
        subst he
        constructor
        · intro h; cases h
        · rintro ⟨rs2, ts2, hrs2, -, hok, -⟩
          cases hrs2
          rw [hg] at hok
          cases hok
      | ok ts =>
        dsimp only
        by_cases hlast : ts.getLast? = some "error"
        · rw [if_neg (by simpa using hlast)]
          constructor
          · intro h; cases h
          · rintro ⟨rs2, ts2, hrs2, -, hok, hne2⟩
            cases hrs2
            rw [hg] at hok
            cases hok
            exact absurd hlast hne2
        · rw [if_pos (by simpa using hlast)]
          exact ⟨fun _ => ⟨r :: rs, ts, rfl, by simp, hg, hlast⟩, fun _ => rfl⟩
  · intro e nm name body hret
    simp only [generateMust, generateTypeParams, generateReceiver, generateParams]
    rw [hret]

/-- Witness for C2's amended characterization: a nil result list yields
`NoReturnValues`; results `(int, int)` (all types reconstruct, last not
`error`) yield `NoErrorReturn`. -/
theorem claim2_witness :
    generateReturns none = .error .noReturnValues ∧
    generateReturns (some [⟨[], .ident "int"⟩, ⟨[], .ident "int"⟩]) =
      .error .noErrorReturn :=
  ⟨(claim2_amended_characterization none).1.mpr (Or.inl rfl),
   (claim2_amended_characterization _).2.1.mpr
     ⟨[⟨[], .ident "int"⟩, ⟨[], .ident "int"⟩], ["int", "int"], rfl,
      by simp, rfl, by decide⟩⟩

/-- A clean declaration's contribution, read back from `declOutput`. -/
theorem declOutputStr_of_ok {tag : String} {comments : List Comment} {fn : FuncDecl}
    {s : String} (h : declOutput tag comments fn = some (.ok s)) :
    declOutputStr tag comments fn = s := by
  rw [declOutputStr, h]

/-- The per-file walk over clean declarations appends each declaration's
contribution to the buffer in list (pre-order) order. -/
theorem runDecls_clean (tag : String) (comments : List Comment) :
    ∀ (decls : List FuncDecl) (acc : String),
      (∀ fn ∈ decls, ∃ s, declOutput tag comments fn = some (.ok s)) →
      runDecls tag comments decls acc =
        some (.ok (acc ++ strJoin (decls.map (declOutputStr tag comments)))) := by
  intro decls
  induction decls with
  | nil =>
    intro acc h
    simp [runDecls, strJoin]
  | cons fn rest ih =>
    intro acc h
    obtain ⟨s, hs⟩ := h fn (List.mem_cons_self _ _)
    rw [runDecls, hs]
    dsimp only
    rw [ih (acc ++ s) (fun f hf => h f (List.mem_cons_of_mem _ hf))]
    simp only [List.map_cons, strJoin, declOutputStr_of_ok hs, String.append_assoc]

/-- The package walk over clean files concatenates the per-file outputs in
`pkg.Syntax` order. -/
theorem runGen_clean (tag : String) :
    ∀ (pkg : List GoFile) (acc : String),
      (∀ file ∈ pkg, ∀ fn ∈ file.decls, ∃ s, declOutput tag file.comments fn = some (.ok s)) →
      runGen tag pkg acc =
        some (.ok (acc ++ strJoin (pkg.map (fun file =>
          strJoin (file.decls.map (declOutputStr tag file.comments)))))) := by
  intro pkg
  induction pkg with
  | nil =>
    intro acc h
    simp [runGen, strJoin]
  | cons file rest ih =>
    intro acc h
    rw [runGen, runDecls_clean tag file.comments file.decls acc
      (h file (List.mem_cons_self _ _))]
    dsimp only
    rw [ih _ (fun f hf fn hfn => h f (List.mem_cons_of_mem _ hf) fn hfn)]
    simp only [List.map_cons, strJoin, String.append_assoc]

/-- C9 (confirmed): generation is deterministic — the embedded generator is
a pure function of the loaded package value (the Go code iterates only
slices, in order), so equal packages give byte-identical buffers — and on a
package whose declarations all scan and synthesize cleanly, the output
buffer is exactly the concatenation, in file iteration order and within a
file in pre-order (document) declaration order, of the per-declaration
wrapper texts. -/
theorem claim9_deterministic_order (tag : String) (pkg pkg2 : List GoFile) :
    (pkg = pkg2 → runGen tag pkg "" = runGen tag pkg2 "") ∧
    ((∀ file ∈ pkg, ∀ fn ∈ file.decls, ∃ s, declOutput tag file.comments fn = some (.ok s)) →
      runGen tag pkg "" = some (.ok (strJoin (pkg.map (fun file =>
        strJoin (file.decls.map (declOutputStr tag file.comments))))))) := by
  constructor
  · intro h
    rw [h]
  · intro h
    rw [runGen_clean tag pkg "" h, String.empty_append]

/-- Witness for C9 at a one-file, one-declaration package whose declaration
is skipped (no comment in its body span). -/
theorem claim9_witness :
    runGen "@gen_must" [⟨[], [⟨"F", none, none, none, none, some ⟨10, 20, none⟩⟩]⟩] "" =
      some (.ok (strJoin [strJoin [declOutputStr "@gen_must" []
        ⟨"F", none, none, none, none, some ⟨10, 20, none⟩⟩]])) :=
  (claim9_deterministic_order "@gen_must"
      [⟨[], [⟨"F", none, none, none, none, some ⟨10, 20, none⟩⟩]⟩] []).2 (by
    intro file hf fn hfn
    simp only [List.mem_singleton] at hf
    subst hf
    simp only [List.mem_singleton] at hfn
    subst hfn
    exact ⟨"", rfl⟩)

end GenMust
